import Mathlib

/-!
Formal model of the configuration-distribution pipeline of the
`distributed_system` repository: the hub's version-authoritative store,
the relay's poll/push loop, the leaf's config holder, and the signed
identity scheme.  Each Go function named in a doc comment below is
translated into a pure Lean function; network and database effects are
made explicit as parameters (fetch results, push results, success flags).
-/

set_option maxHeartbeats 1000000

namespace DistSys

/-- Configuration entity from `internal/domain/config/entity.go` (`Config`):
fields `uuid`, `version`, `config_url`, `pooling_interval`, `created_at`.
Go `int` is modelled as `Int`, Go `string` as `String`. -/
structure Config where
  uuid : String
  version : Int
  configURL : String
  poolingInterval : Int
  createdAt : String
deriving Repr, DecidableEq

/-- Outcome of one `fetchConfigFromController` call in `cmd/agents/main.go`:
either an error (the loop logs and `continue`s) or a decoded configuration. -/
inductive FetchResult
  | failure
  | success (cfg : Config)
deriving Repr, DecidableEq

/-- Outcome of one `pushConfigToWorker` call in `cmd/agents/main.go`:
`ok` when the worker answered HTTP 200, `failed` otherwise. -/
inductive PushResult
  | ok
  | failed
deriving Repr, DecidableEq

/-- State of the relay polling loop of `startPolling` in `cmd/agents/main.go`.
The Go loop keeps `lastConfig *domainConfig.Config` (a pointer), the global
counter `countFetch`, and the ticker interval.  The guard
`newConfig != lastConfig` compares POINTERS, and every fetch returns a freshly
allocated struct (`&response.Data`), so pointer identity matters: we model the
heap by allocation ids, `lastPtr` being the id behind `lastConfig` and
`nextAlloc` the next fresh id (every live pointer id is `< nextAlloc`). -/
structure AgentState where
  lastConfig : Config
  lastPtr : Nat
  countFetch : Int
  interval : Int
  nextAlloc : Nat
deriving Repr, DecidableEq

/-- Result of one polling cycle: the successor state and, when the push
branch executed, the configuration that was pushed to the worker. -/
structure CycleResult where
  state : AgentState
  pushed : Option Config
deriving Repr, DecidableEq

/-- One iteration of the `select` loop body of `startPolling`
(`cmd/agents/main.go`, the `case <-ticker.C` arm): fetch; on fetch error,
`continue`; otherwise `countFetch += 1`, and when
`newConfig != lastConfig || countFetch > 3` (pointer inequality!) reset the
counter, push to the worker (the push error is only logged — the `_push`
outcome does not influence the state), assign `lastConfig = newConfig`, and
reset the ticker when the fetched pooling interval differs from the current
one.  In the `else` branch only the incremented counter survives. -/
def pollCycle (s : AgentState) (fetch : FetchResult) (_push : PushResult) :
    CycleResult :=
  match fetch with
  | .failure => { state := s, pushed := none }
  | .success newConfig =>
      let newPtr := s.nextAlloc
      let s1 : AgentState := { s with nextAlloc := s.nextAlloc + 1 }
      let countFetch := s1.countFetch + 1
      if newPtr ≠ s1.lastPtr ∨ countFetch > 3 then
        let newInterval := newConfig.poolingInterval
        { state := { s1 with
            countFetch := 0
            lastConfig := newConfig
            lastPtr := newPtr
            interval := if newInterval ≠ s1.interval then newInterval
                        else s1.interval }
          pushed := some newConfig }
      else
        { state := { s1 with countFetch := countFetch }, pushed := none }

/-- Sample configuration of Scenario B of the spec:
`{target: "https://example.com/a", interval: 30, version: 1}`. -/
def cfgA : Config :=
  { uuid := "u-1", version := 1, configURL := "https://example.com/a"
    poolingInterval := 30, createdAt := "2024-01-01T00:00:00Z" }

/-- Sample configuration of Scenario C of the spec: `version: 2, interval: 60`. -/
def cfgB : Config :=
  { uuid := "u-1", version := 2, configURL := "https://example.com/a"
    poolingInterval := 60, createdAt := "2024-01-02T00:00:00Z" }

/-- Relay state after the initial sync with `cfgA` applied: the pointer held
in `lastConfig` is allocation 0, the counter is 0, the poll interval 30. -/
def agentS0 : AgentState :=
  { lastConfig := cfgA, lastPtr := 0, countFetch := 0, interval := 30
    nextAlloc := 1 }

/-- C1: the claim fails on the code.  In the polling cycle the guard
`newConfig != lastConfig` is Go pointer inequality on a freshly allocated
response struct, so it is true on every cycle and the relay pushes even when
the fetched configuration equals the last applied one by value.  Concretely:
from state `agentS0` (last applied `cfgA`, version 1, counter 0), fetching the
value-identical `cfgA` pushes, although the fetched version (1) is not
strictly greater than the applied version (1) and the incremented unchanged
counter (1) has not exceeded the threshold 3 — the claim (and the spec's
intended contract) says this cycle must not push. -/
theorem pollCycle_pushes_on_unchanged_version :
    (pollCycle agentS0 (.success cfgA) .ok).pushed = some cfgA
    ∧ ¬ cfgA.version > agentS0.lastConfig.version
    ∧ ¬ agentS0.countFetch + 1 > 3 := by
  decide

/-- C2 (amended): whenever a cycle's fetch succeeds, the relay assigns
`lastConfig = newConfig` unconditionally — the push outcome is only logged —
so the last applied configuration becomes the fetched one whether the push
succeeded or failed.  (The push branch is always taken because the freshly
allocated pointer differs from the stored one, `s.lastPtr < s.nextAlloc`.) -/
theorem pollCycle_lastConfig_becomes_fetched
    (s : AgentState) (c : Config) (p : PushResult)
    (h : s.lastPtr < s.nextAlloc) :
    (pollCycle s (.success c) p).state.lastConfig = c := by
  unfold pollCycle
  simp only
  rw [if_pos]
  exact Or.inl (by omega)

/-- Witness for `pollCycle_lastConfig_becomes_fetched` at the concrete state
`agentS0` with fetched `cfgB` and a failed push. -/
theorem pollCycle_lastConfig_becomes_fetched_wit :
    agentS0.lastPtr < agentS0.nextAlloc
    ∧ (pollCycle agentS0 (.success cfgB) .failed).state.lastConfig = cfgB :=
  ⟨by decide,
   pollCycle_lastConfig_becomes_fetched agentS0 cfgB .failed (by decide)⟩

/-- C2 (counterexample): from `agentS0` (last applied `cfgA`), a cycle fetches
`cfgB` and the downstream push FAILS, yet the relay's last-applied
configuration is `cfgB` afterwards, not the retained `cfgA` the claim
requires. -/
theorem pollCycle_updates_lastConfig_on_failed_push :
    (pollCycle agentS0 (.success cfgB) .failed).state.lastConfig = cfgB
    ∧ cfgB ≠ cfgA := by
  decide

/-- C6 (amended): when a cycle's fetch succeeds, the relay's poll interval
always ends up equal to the fetched configuration's pooling interval —
the ticker is reset after the push ATTEMPT whether or not the push succeeded
(the Go code resets whenever `newInterval != interval`, inside the branch that
is always taken, and never consults the push error). -/
theorem pollCycle_interval_follows_fetched
    (s : AgentState) (c : Config) (p : PushResult)
    (h : s.lastPtr < s.nextAlloc) :
    (pollCycle s (.success c) p).state.interval = c.poolingInterval := by
  unfold pollCycle
  simp only
  rw [if_pos]
  · by_cases hi : c.poolingInterval ≠ s.interval
    · simp [hi]
    · simp at hi
      simp [hi]
  · exact Or.inl (by omega)

/-- Witness for `pollCycle_interval_follows_fetched`: concrete state
`agentS0` (interval 30), fetched `cfgB` (interval 60), failed push. -/
theorem pollCycle_interval_follows_fetched_wit :
    agentS0.lastPtr < agentS0.nextAlloc
    ∧ (pollCycle agentS0 (.success cfgB) .failed).state.interval
        = cfgB.poolingInterval :=
  ⟨by decide,
   pollCycle_interval_follows_fetched agentS0 cfgB .failed (by decide)⟩

/-- C6 (counterexample): from `agentS0` (poll interval 30) a cycle fetches
`cfgB` (interval 60) and the push FAILS; the relay resets its poll timer to
60 anyway, while the claim allows the reset only after a successful push. -/
theorem pollCycle_resets_interval_on_failed_push :
    (pollCycle agentS0 (.success cfgB) .failed).state.interval = 60
    ∧ agentS0.interval = 30 := by
  decide

/-! Hub side: the version-authoritative store
(`internal/repository/config/config_repository.go` and
`internal/usecase/config/config_usecase.go`).  The database is modelled as
the list of `config` rows, the Redis read-through cache as an
`Option Config`; fallibility of each external call is an explicit `Bool`
flag (`true` = the call succeeded). -/

/-- Translation of `repository.GetLatestConfig`
(`internal/repository/config/config_repository.go`): `ORDER BY version DESC`
then `First` — the row with the maximal `version` (`none` models gorm's
`ErrRecordNotFound` on an empty table; among equal versions the earliest row
is returned, immaterial because reachable stores carry distinct versions). -/
def repoGetLatest : List Config → Option Config
  | [] => none
  | c :: rest =>
      match repoGetLatest rest with
      | none => some c
      | some m => if c.version ≥ m.version then some c else some m

/-- Version of the latest row, `0` when the table is empty (so that
`create` uniformly assigns `latestVersion + 1`, matching the Go
`version = 1` branch for an empty table). -/
def latestVersion (store : List Config) : Int :=
  match repoGetLatest store with
  | none => 0
  | some c => c.version

/-- Error taxonomy observed by the hub's config usecase: `notFound` from the
repository, `dbRead`/`dbWrite` for other database failures, `cacheWrite` for
a failed `cache.SetConfig`. -/
inductive HubErr
  | notFound (resource : String)
  | dbRead
  | dbWrite
  | cacheWrite
deriving Repr, DecidableEq

/-- Request body of `POST /config/admin`
(`internal/domain/config/entity.go`, `SaveCreate`): `config_url` with
`binding:"required"`, `pooling_interval` with `binding:"min=30"`. -/
structure SaveCreate where
  configUrl : String
  poolingInterval : Int
deriving Repr, DecidableEq

/-- Request body of `PUT /config/admin`
(`internal/domain/config/entity.go`, `SaveUpdate`): optional `config_url`
(`binding:"omitempty"`), optional `pooling_interval` modelled as
`Option Int` for the Go `*int` with `binding:"omitempty,min=30"`. -/
structure SaveUpdate where
  configUrl : String
  poolingInterval : Option Int
deriving Repr, DecidableEq

/-- Hub-side mutable state: the durable `config` table and the Redis cache
entry `config:latest`. -/
structure HubState where
  store : List Config
  cache : Option Config
deriving Repr, DecidableEq

/-- Result of a hub usecase call: the Go `(value, error)` pair as an
`Except`, together with the post-state. -/
structure HubOpResult (α : Type) where
  result : Except HubErr α
  hub : HubState
deriving Repr

/-- Translation of `ConfigUsecase.Create`
(`internal/usecase/config/config_usecase.go`): read the latest row
(`readOk = false` models a non-NotFound read error, which aborts); assign
`version = latestConfig.Version + 1`, or `1` when no row exists; insert the
new row (`dbOk`); then `cache.SetConfig` (`cacheOk`) — a cache failure is
returned as an error AFTER the row was durably inserted. -/
def hubCreate (h : HubState) (save : SaveCreate) (newUuid now : String)
    (readOk dbOk cacheOk : Bool) : HubOpResult Config :=
  if readOk then
    let version : Int :=
      match repoGetLatest h.store with
      | none => 1
      | some latest => latest.version + 1
    let newConfig : Config :=
      { uuid := newUuid, version := version, configURL := save.configUrl
        poolingInterval := save.poolingInterval, createdAt := now }
    if dbOk then
      let store1 := h.store ++ [newConfig]
      if cacheOk then
        { result := .ok newConfig
          hub := { store := store1, cache := some newConfig } }
      else
        { result := .error .cacheWrite
          hub := { store := store1, cache := h.cache } }
    else
      { result := .error .dbWrite, hub := h }
  else
    { result := .error .dbRead, hub := h }

/-- Field merge performed by `ConfigUsecase.Update` on the fetched latest
row: overwrite `ConfigURL` when the input URL is non-empty, overwrite
`PoolingInterval` when supplied and `>= 0`; `uuid`, `version`, `created_at`
are untouched. -/
def applyUpdate (cfg0 : Config) (save : SaveUpdate) : Config :=
  let cfg1 := if save.configUrl ≠ "" then
    { cfg0 with configURL := save.configUrl } else cfg0
  match save.poolingInterval with
  | some p => if p ≥ 0 then { cfg1 with poolingInterval := p } else cfg1
  | none => cfg1

/-- Translation of `ConfigUsecase.Update`
(`internal/usecase/config/config_usecase.go`): fetch the latest row
(NotFound is surfaced); merge the mutable fields via `applyUpdate`;
persist via gorm `Save` (update of the row with the same primary key
`uuid`), then set the cache. -/
def hubUpdate (h : HubState) (save : SaveUpdate)
    (readOk writeOk cacheOk : Bool) : HubOpResult Unit :=
  if readOk then
    match repoGetLatest h.store with
    | none => { result := .error (.notFound "config"), hub := h }
    | some cfg0 =>
        let cfg2 := applyUpdate cfg0 save
        if writeOk then
          let store1 := h.store.map fun c =>
            if c.uuid = cfg2.uuid then cfg2 else c
          if cacheOk then
            { result := .ok (), hub := { store := store1, cache := some cfg2 } }
          else
            { result := .error .cacheWrite
              hub := { store := store1, cache := h.cache } }
        else
          { result := .error .dbWrite, hub := h }
  else
    { result := .error .dbRead, hub := h }

/-- Admin-issued hub operation, the single-writer sequence of §8 of the
spec: a `POST /config/admin` create (with the uuid and timestamp the call
generates) or a `PUT /config/admin` update. -/
inductive HubOp
  | createOp (save : SaveCreate) (newUuid now : String)
  | updateOp (save : SaveUpdate)
deriving Repr

/-- Effect of one successful hub operation on the hub state (all external
calls succeed — the happy path of the single-writer sequence). -/
def hubStep (h : HubState) : HubOp → HubState
  | .createOp save u now => (hubCreate h save u now true true true).hub
  | .updateOp save => (hubUpdate h save true true true).hub

/-- Run a sequence of hub operations. -/
def hubRun (h : HubState) : List HubOp → HubState
  | [] => h
  | op :: rest => hubRun (hubStep h op) rest

/-- List of row uuids of the hub store. -/
def hubUuids (h : HubState) : List String :=
  h.store.map Config.uuid

/-- Freshness of generated uuids along a run: each create's
`uuid.New().String()` differs from every uuid already in the table. -/
def freshAlong (h : HubState) : List HubOp → Bool
  | [] => true
  | op :: rest =>
      (match op with
       | .createOp _ u _ => decide (u ∉ hubUuids h)
       | .updateOp _ => true)
      && freshAlong (hubStep h op) rest

theorem repoGetLatest_eq_none {s : List Config} :
    repoGetLatest s = none ↔ s = [] := by
  cases s with
  | nil => simp [repoGetLatest]
  | cons c rest =>
      simp only [repoGetLatest]
      cases repoGetLatest rest with
      | none => simp
      | some m => by_cases hv : c.version ≥ m.version <;> simp [hv]

theorem repoGetLatest_mem {s : List Config} :
    ∀ {m : Config}, repoGetLatest s = some m → m ∈ s := by
  induction s with
  | nil => intro m h; simp [repoGetLatest] at h
  | cons c rest ih =>
      intro m h
      cases hr : repoGetLatest rest with
      | none =>
          simp only [repoGetLatest, hr] at h
          injection h with h
          simp [h]
      | some m' =>
          simp only [repoGetLatest, hr] at h
          by_cases hv : c.version ≥ m'.version
          · rw [if_pos hv] at h
            injection h with h
            simp [h]
          · rw [if_neg hv] at h
            injection h with h
            exact List.mem_cons_of_mem c (h ▸ ih hr)

theorem version_le_repoGetLatest {s : List Config} :
    ∀ {m : Config}, repoGetLatest s = some m →
      ∀ c ∈ s, c.version ≤ m.version := by
  induction s with
  | nil => intro m h; simp [repoGetLatest] at h
  | cons c rest ih =>
      intro m h x hx
      cases hr : repoGetLatest rest with
      | none =>
          simp only [repoGetLatest, hr] at h
          injection h with h
          have hrest : rest = [] := repoGetLatest_eq_none.mp hr
          subst hrest
          simp at hx
          subst hx
          subst h
          exact le_refl _
      | some m' =>
          simp only [repoGetLatest, hr] at h
          rcases List.mem_cons.mp hx with hxc | hxr
          · subst hxc
            by_cases hv : x.version ≥ m'.version
            · rw [if_pos hv] at h
              injection h with h
              subst h; exact le_refl _
            · rw [if_neg hv] at h
              injection h with h
              subst h; omega
          · have hle := ih hr x hxr
            by_cases hv : c.version ≥ m'.version
            · rw [if_pos hv] at h
              injection h with h
              subst h; omega
            · rw [if_neg hv] at h
              injection h with h
              subst h; exact hle

theorem version_le_latestVersion {s : List Config} {c : Config}
    (hc : c ∈ s) : c.version ≤ latestVersion s := by
  unfold latestVersion
  cases hr : repoGetLatest s with
  | none =>
      have : s = [] := repoGetLatest_eq_none.mp hr
      subst this
      simp at hc
  | some m => exact version_le_repoGetLatest hr c hc

theorem repoGetLatest_append_gt {s : List Config} {x : Config}
    (h : ∀ c ∈ s, c.version < x.version) :
    repoGetLatest (s ++ [x]) = some x := by
  induction s with
  | nil => simp [repoGetLatest]
  | cons c rest ih =>
      have hrest : repoGetLatest (rest ++ [x]) = some x :=
        ih fun d hd => h d (List.mem_cons_of_mem c hd)
      have hc : c.version < x.version := h c (List.mem_cons_self c rest)
      have hv : ¬ c.version ≥ x.version := by omega
      rw [List.cons_append]
      simp only [repoGetLatest, hrest]
      rw [if_neg hv]

theorem latestVersion_append_succ {s : List Config} {x : Config}
    (hx : x.version = latestVersion s + 1) :
    latestVersion (s ++ [x]) = latestVersion s + 1 := by
  have hlat : repoGetLatest (s ++ [x]) = some x :=
    repoGetLatest_append_gt fun c hc => by
      have := version_le_latestVersion hc; omega
  have h1 : latestVersion (s ++ [x]) = x.version := by
    simp only [latestVersion, hlat]
  rw [h1, hx]

theorem repoGetLatest_version_congr :
    ∀ {s t : List Config}, s.map Config.version = t.map Config.version →
      (repoGetLatest s).map Config.version
        = (repoGetLatest t).map Config.version := by
  intro s
  induction s with
  | nil =>
      intro t h
      have ht : t = [] := by simpa using h.symm
      subst ht; rfl
  | cons c rest ih =>
      intro t h
      cases t with
      | nil => simp at h
      | cons d u =>
          simp only [List.map_cons, List.cons.injEq] at h
          obtain ⟨hcd, hru⟩ := h
          have ihm := ih hru
          simp only [repoGetLatest]
          cases hr : repoGetLatest rest with
          | none =>
              cases hu : repoGetLatest u with
              | none => simpa using hcd
              | some mu => rw [hr, hu] at ihm; simp at ihm
          | some mr =>
              cases hu : repoGetLatest u with
              | none => rw [hr, hu] at ihm; simp at ihm
              | some mu =>
                  rw [hr, hu] at ihm
                  simp only [Option.map_some'] at ihm
                  injection ihm with ihm
                  show Option.map Config.version
                        (if c.version ≥ mr.version then some c else some mr)
                      = Option.map Config.version
                        (if d.version ≥ mu.version then some d else some mu)
                  by_cases hv : c.version ≥ mr.version
                  · rw [if_pos hv, if_pos (show d.version ≥ mu.version by omega)]
                    simp only [Option.map_some']
                    rw [hcd]
                  · rw [if_neg hv, if_neg (show ¬ d.version ≥ mu.version by omega)]
                    simp only [Option.map_some']
                    rw [ihm]

theorem latestVersion_congr {s t : List Config}
    (h : s.map Config.version = t.map Config.version) :
    latestVersion s = latestVersion t := by
  have hc := repoGetLatest_version_congr h
  unfold latestVersion
  cases hr : repoGetLatest s with
  | none =>
      cases ht : repoGetLatest t with
      | none => rfl
      | some mt => rw [hr, ht] at hc; simp at hc
  | some ms =>
      cases ht : repoGetLatest t with
      | none => rw [hr, ht] at hc; simp at hc
      | some mt =>
          rw [hr, ht] at hc
          simpa using hc

theorem replace_map_uuid (s : List Config) (cfg : Config) :
    (s.map fun c => if c.uuid = cfg.uuid then cfg else c).map Config.uuid
      = s.map Config.uuid := by
  rw [List.map_map]
  apply List.map_congr_left
  intro c _
  by_cases hc : c.uuid = cfg.uuid
  · simp [Function.comp, hc]
  · simp [Function.comp, hc]

theorem replace_map_version (s : List Config) (cfg : Config)
    (hsame : ∀ c ∈ s, c.uuid = cfg.uuid → c.version = cfg.version) :
    (s.map fun c => if c.uuid = cfg.uuid then cfg else c).map Config.version
      = s.map Config.version := by
  rw [List.map_map]
  apply List.map_congr_left
  intro c hc
  by_cases h : c.uuid = cfg.uuid
  · simp only [Function.comp_apply, if_pos h]
    exact (hsame c hc h).symm
  · simp [Function.comp, h]

theorem applyUpdate_uuid (c : Config) (save : SaveUpdate) :
    (applyUpdate c save).uuid = c.uuid := by
  unfold applyUpdate
  cases save.poolingInterval <;> simp only [] <;> split_ifs <;> rfl

theorem applyUpdate_version (c : Config) (save : SaveUpdate) :
    (applyUpdate c save).version = c.version := by
  unfold applyUpdate
  cases save.poolingInterval <;> simp only [] <;> split_ifs <;> rfl

/-- Configuration assembled by `ConfigUsecase.Create`: fresh uuid, version
`previous max + 1` (`latestVersion` of an empty store being `0`, this is `1`
when no configuration exists), the requested url and interval, the current
timestamp. -/
def createdConfig (h : HubState) (save : SaveCreate) (u now : String) :
    Config :=
  { uuid := u, version := latestVersion h.store + 1
    configURL := save.configUrl, poolingInterval := save.poolingInterval
    createdAt := now }

theorem hubCreate_ok (h : HubState) (save : SaveCreate) (u now : String) :
    hubCreate h save u now true true true =
      { result := .ok (createdConfig h save u now)
        hub := { store := h.store ++ [createdConfig h save u now]
                 cache := some (createdConfig h save u now) } } := by
  unfold hubCreate createdConfig
  cases hr : repoGetLatest h.store <;> simp [latestVersion, hr]

theorem hubCreate_cacheFail (h : HubState) (save : SaveCreate)
    (u now : String) :
    hubCreate h save u now true true false =
      { result := .error .cacheWrite
        hub := { store := h.store ++ [createdConfig h save u now]
                 cache := h.cache } } := by
  unfold hubCreate createdConfig
  cases hr : repoGetLatest h.store <;> simp [latestVersion, hr]

theorem hubUpdate_none (h : HubState) (save : SaveUpdate)
    (hr : repoGetLatest h.store = none) :
    hubUpdate h save true true true =
      { result := .error (.notFound "config"), hub := h } := by
  unfold hubUpdate
  rw [hr]
  rfl

theorem hubUpdate_some (h : HubState) (save : SaveUpdate) (cfg0 : Config)
    (hr : repoGetLatest h.store = some cfg0) :
    hubUpdate h save true true true =
      { result := .ok ()
        hub := { store := h.store.map fun c =>
                   if c.uuid = (applyUpdate cfg0 save).uuid
                   then applyUpdate cfg0 save else c
                 cache := some (applyUpdate cfg0 save) } } := by
  unfold hubUpdate
  rw [hr]
  rfl

theorem hubUpdate_versions (h : HubState) (save : SaveUpdate)
    (hnd : (h.store.map Config.uuid).Nodup) :
    (hubUpdate h save true true true).hub.store.map Config.version
      = h.store.map Config.version := by
  cases hr : repoGetLatest h.store with
  | none => rw [hubUpdate_none h save hr]
  | some cfg0 =>
      rw [hubUpdate_some h save cfg0 hr]
      apply replace_map_version
      intro c hc hcu
      have hmem : cfg0 ∈ h.store := repoGetLatest_mem hr
      have hceq : c = cfg0 :=
        List.inj_on_of_nodup_map hnd hc hmem
          (by rw [hcu, applyUpdate_uuid])
      rw [hceq, applyUpdate_version]

theorem hubUpdate_uuids (h : HubState) (save : SaveUpdate) :
    (hubUpdate h save true true true).hub.store.map Config.uuid
      = h.store.map Config.uuid := by
  cases hr : repoGetLatest h.store with
  | none => rw [hubUpdate_none h save hr]
  | some cfg0 =>
      rw [hubUpdate_some h save cfg0 hr]
      exact replace_map_uuid h.store (applyUpdate cfg0 save)

theorem hubStep_create (h : HubState) (save : SaveCreate) (u now : String) :
    hubStep h (.createOp save u now) =
      { store := h.store ++ [createdConfig h save u now]
        cache := some (createdConfig h save u now) } := by
  show (hubCreate h save u now true true true).hub = _
  rw [hubCreate_ok]

theorem latestVersion_step_create (h : HubState) (save : SaveCreate)
    (u now : String) :
    latestVersion (hubStep h (.createOp save u now)).store
      = latestVersion h.store + 1 := by
  rw [hubStep_create]
  exact latestVersion_append_succ rfl

theorem latestVersion_step_update (h : HubState) (save : SaveUpdate)
    (hnd : (hubUuids h).Nodup) :
    latestVersion (hubStep h (.updateOp save)).store
      = latestVersion h.store := by
  unfold hubStep
  exact latestVersion_congr (hubUpdate_versions h save hnd)

theorem hubUuids_step_create (h : HubState) (save : SaveCreate)
    (u now : String) :
    hubUuids (hubStep h (.createOp save u now)) = hubUuids h ++ [u] := by
  rw [hubStep_create]
  unfold hubUuids createdConfig
  simp

theorem hubUuids_step_update (h : HubState) (save : SaveUpdate) :
    hubUuids (hubStep h (.updateOp save)) = hubUuids h := by
  unfold hubStep hubUuids
  exact hubUpdate_uuids h save

theorem nodup_step (h : HubState) (op : HubOp) (hnd : (hubUuids h).Nodup)
    (hfresh : match op with
      | .createOp _ u _ => u ∉ hubUuids h
      | .updateOp _ => True) :
    (hubUuids (hubStep h op)).Nodup := by
  cases op with
  | createOp save u now =>
      rw [hubUuids_step_create]
      simp only [List.nodup_append, List.nodup_cons, List.not_mem_nil,
        not_false_iff, List.nodup_nil, and_true, true_and,
        List.disjoint_singleton]
      exact ⟨hnd, hfresh⟩
  | updateOp save =>
      rw [hubUuids_step_update]
      exact hnd

theorem latestVersion_step_le (h : HubState) (op : HubOp)
    (hnd : (hubUuids h).Nodup) :
    latestVersion h.store ≤ latestVersion (hubStep h op).store := by
  cases op with
  | createOp save u now => rw [latestVersion_step_create]; omega
  | updateOp save => rw [latestVersion_step_update h save hnd]

theorem hubRun_append (h : HubState) (ops rest : List HubOp) :
    hubRun h (ops ++ rest) = hubRun (hubRun h ops) rest := by
  induction ops generalizing h with
  | nil => rfl
  | cons op tail ih =>
      simp only [List.cons_append, hubRun]
      exact ih (hubStep h op)

theorem freshAlong_cons {h : HubState} {op : HubOp} {rest : List HubOp} :
    freshAlong h (op :: rest) = true ↔
      ((match op with
        | .createOp _ u _ => u ∉ hubUuids h
        | .updateOp _ => True)
       ∧ freshAlong (hubStep h op) rest = true) := by
  cases op <;> simp [freshAlong]

theorem nodup_hubRun (h : HubState) (ops : List HubOp)
    (hnd : (hubUuids h).Nodup) (hf : freshAlong h ops = true) :
    (hubUuids (hubRun h ops)).Nodup := by
  induction ops generalizing h with
  | nil => exact hnd
  | cons op tail ih =>
      obtain ⟨h1, h2⟩ := freshAlong_cons.mp hf
      exact ih (hubStep h op) (nodup_step h op hnd h1) h2

theorem freshAlong_append (h : HubState) (ops rest : List HubOp)
    (hf : freshAlong h (ops ++ rest) = true) :
    freshAlong h ops = true ∧ freshAlong (hubRun h ops) rest = true := by
  induction ops generalizing h with
  | nil => exact ⟨rfl, hf⟩
  | cons op tail ih =>
      rw [List.cons_append] at hf
      obtain ⟨h1, h2⟩ := freshAlong_cons.mp hf
      obtain ⟨h3, h4⟩ := ih (hubStep h op) h2
      exact ⟨freshAlong_cons.mpr ⟨h1, h3⟩, h4⟩

theorem latestVersion_le_hubRun (h : HubState) (ops : List HubOp)
    (hnd : (hubUuids h).Nodup) (hf : freshAlong h ops = true) :
    latestVersion h.store ≤ latestVersion (hubRun h ops).store := by
  induction ops generalizing h with
  | nil => exact le_refl _
  | cons op tail ih =>
      obtain ⟨h1, h2⟩ := freshAlong_cons.mp hf
      have hstep := latestVersion_step_le h op hnd
      have htail := ih (hubStep h op) (nodup_step h op hnd h1) h2
      exact le_trans hstep htail

/-- C3: over every sequence of successful create/update operations at the
hub (with the generated uuids fresh, as `uuid.New()` guarantees), the latest
stored version is non-decreasing; `ConfigUsecase.Create` returns a
configuration whose version is the previous maximum plus one (hence `1` on
an empty store) and bumps the latest version by exactly one; and
`ConfigUsecase.Update` leaves every row's `version` field — and therefore
the latest version — unchanged, so the version strictly increases only on
create. -/
theorem hub_version_law (h : HubState) (hnd : (hubUuids h).Nodup) :
    (∀ ops rest : List HubOp, freshAlong h (ops ++ rest) = true →
        latestVersion (hubRun h ops).store
          ≤ latestVersion (hubRun h (ops ++ rest)).store)
    ∧ (∀ (save : SaveCreate) (u now : String),
        (hubCreate h save u now true true true).result
            = .ok (createdConfig h save u now)
        ∧ (createdConfig h save u now).version = latestVersion h.store + 1
        ∧ (h.store = [] → (createdConfig h save u now).version = 1)
        ∧ latestVersion (hubStep h (.createOp save u now)).store
            = latestVersion h.store + 1)
    ∧ (∀ save : SaveUpdate,
        (hubUpdate h save true true true).hub.store.map Config.version
            = h.store.map Config.version
        ∧ latestVersion (hubStep h (.updateOp save)).store
            = latestVersion h.store) := by
  refine ⟨?_, ?_, ?_⟩
  · intro ops rest hf
    obtain ⟨h1, h2⟩ := freshAlong_append h ops rest hf
    rw [hubRun_append]
    exact latestVersion_le_hubRun (hubRun h ops) rest
      (nodup_hubRun h ops hnd h1) h2
  · intro save u now
    refine ⟨by rw [hubCreate_ok], rfl, ?_,
      latestVersion_step_create h save u now⟩
    intro hemp
    simp [createdConfig, latestVersion, hemp, repoGetLatest]
  · intro save
    exact ⟨hubUpdate_versions h save hnd,
      latestVersion_step_update h save hnd⟩

/-- Hub state before any configuration was created: empty table, empty
cache. -/
def hubEmpty : HubState := { store := [], cache := none }

/-- Witness for `hub_version_law`: the empty hub, a create of version 1,
followed by an update and a second create. -/
theorem hub_version_law_wit :
    (hubUuids hubEmpty).Nodup
    ∧ latestVersion (hubRun hubEmpty
        [.createOp ⟨"https://example.com/a", 30⟩ "u-1" "t1"]).store
      ≤ latestVersion (hubRun hubEmpty
        ([.createOp ⟨"https://example.com/a", 30⟩ "u-1" "t1"]
          ++ [.updateOp ⟨"", some 60⟩,
              .createOp ⟨"https://example.com/b", 45⟩ "u-2" "t2"])).store :=
  ⟨by decide,
   (hub_version_law hubEmpty (by decide)).1
     [.createOp ⟨"https://example.com/a", 30⟩ "u-1" "t1"]
     [.updateOp ⟨"", some 60⟩,
      .createOp ⟨"https://example.com/b", 45⟩ "u-2" "t2"]
     (by decide)⟩

/-- C10: when the durable insert succeeds but the cache write fails,
`ConfigUsecase.Create` reports an error, yet the new configuration with the
advanced version number is already persisted: the repository's
`GetLatestConfig` on the post-state returns exactly the new row, whose
version is the previous maximum plus one — a create reported as failed
still advances the version later reads observe. -/
theorem create_cache_failure_persists (h : HubState) (save : SaveCreate)
    (u now : String) :
    (hubCreate h save u now true true false).result = .error .cacheWrite
    ∧ (hubCreate h save u now true true false).hub.store
        = h.store ++ [createdConfig h save u now]
    ∧ repoGetLatest (hubCreate h save u now true true false).hub.store
        = some (createdConfig h save u now)
    ∧ (createdConfig h save u now).version = latestVersion h.store + 1 := by
  refine ⟨by rw [hubCreate_cacheFail], by rw [hubCreate_cacheFail], ?_, rfl⟩
  rw [hubCreate_cacheFail]
  exact repoGetLatest_append_gt fun c hc => by
    have hle := version_le_latestVersion hc
    simp only [createdConfig]
    omega

/-- Gin binding validation of a `SaveCreate` body (`ShouldBindJSON` in
`ConfigHandler.Create` with the tags of `internal/domain/config/entity.go`):
`config_url` is `required` (non-empty string), `pooling_interval` carries
`min=30` with no `omitempty`, so the floor is always checked (an absent
field decodes to `0` and fails it). -/
def bindSaveCreate (save : SaveCreate) : Bool :=
  decide (save.configUrl ≠ "") && decide ((30 : Int) ≤ save.poolingInterval)

/-- Gin binding validation of a `SaveUpdate` body (`ConfigHandler.Update`):
`config_url` is `omitempty` with no further validator (always passes);
`pooling_interval` is a `*int` with `omitempty,min=30`: an absent field
(`none`) is skipped, while any supplied value — the validator treats a
non-nil pointer as present, a pointed-to `0` included — must satisfy the
floor. -/
def bindSaveUpdate (save : SaveUpdate) : Bool :=
  match save.poolingInterval with
  | none => true
  | some p => decide ((30 : Int) ≤ p)

/-- Outcome of a hub handler call: `validationFailed` models
`response.BindingError` on `validator.ValidationErrors` (HTTP 400, code
`ERR_VALIDATION`, message "Validation failed"); `failure` wraps a usecase
error via `response.Error`; `success` is the 200 envelope. -/
inductive HandlerOutcome (α : Type)
  | validationFailed
  | failure (e : HubErr)
  | success (a : α)
deriving Repr, DecidableEq

/-- Translation of `ConfigHandler.Create`
(`internal/delivery/http/handler/config_handler.go`): bind the body —
a validation failure answers 400 without touching the usecase — then run
`ConfigUsecase.Create`. -/
def handlerCreate (h : HubState) (save : SaveCreate) (u now : String)
    (readOk dbOk cacheOk : Bool) : HandlerOutcome Config × HubState :=
  if bindSaveCreate save then
    let r := hubCreate h save u now readOk dbOk cacheOk
    match r.result with
    | .ok c => (.success c, r.hub)
    | .error e => (.failure e, r.hub)
  else (.validationFailed, h)

/-- Translation of `ConfigHandler.Update`: bind the body, then run
`ConfigUsecase.Update`. -/
def handlerUpdate (h : HubState) (save : SaveUpdate)
    (readOk writeOk cacheOk : Bool) : HandlerOutcome Unit × HubState :=
  if bindSaveUpdate save then
    let r := hubUpdate h save readOk writeOk cacheOk
    match r.result with
    | .ok a => (.success a, r.hub)
    | .error e => (.failure e, r.hub)
  else (.validationFailed, h)

/-- C7: the interval floor at the hub.  A create whose interval is strictly
below 30, and an update supplying a value strictly below 30, are rejected by
binding validation with the ValidationFailed outcome, the hub state (and so
the stored configurations) unchanged; a create with interval exactly 30 and
the required non-empty url succeeds, and an update supplying exactly 30 is
never a validation failure and succeeds whenever a configuration exists. -/
theorem interval_floor (h : HubState) (save : SaveCreate)
    (saveU : SaveUpdate) (u now : String) (p : Int) :
    (save.poolingInterval < 30 →
      handlerCreate h save u now true true true = (.validationFailed, h))
    ∧ (saveU.poolingInterval = some p → p < 30 →
      handlerUpdate h saveU true true true = (.validationFailed, h))
    ∧ (save.configUrl ≠ "" → save.poolingInterval = 30 →
      handlerCreate h save u now true true true
        = (.success (createdConfig h save u now),
           { store := h.store ++ [createdConfig h save u now]
             cache := some (createdConfig h save u now) }))
    ∧ (saveU.poolingInterval = some p → p = 30 →
      (handlerUpdate h saveU true true true).1 ≠ .validationFailed
      ∧ (h.store ≠ [] →
          (handlerUpdate h saveU true true true).1 = .success ())) := by
  refine ⟨?_, ?_, ?_, ?_⟩
  · intro hlt
    have hb : bindSaveCreate save = false := by
      simp only [bindSaveCreate, Bool.and_eq_false_iff, decide_eq_false_iff_not]
      right; omega
    simp [handlerCreate, hb]
  · intro hp hlt
    have hb : bindSaveUpdate saveU = false := by
      simp only [bindSaveUpdate, hp, decide_eq_false_iff_not]
      omega
    simp [handlerUpdate, hb]
  · intro hurl hiv
    have hb : bindSaveCreate save = true := by
      simp only [bindSaveCreate, Bool.and_eq_true, decide_eq_true_eq]
      exact ⟨hurl, by omega⟩
    simp [handlerCreate, hb, hubCreate_ok]
  · intro hp hiv
    have hb : bindSaveUpdate saveU = true := by
      simp only [bindSaveUpdate, hp, decide_eq_true_eq]
      omega
    cases hr : repoGetLatest h.store with
    | none =>
        constructor
        · simp [handlerUpdate, hb, hubUpdate_none h saveU hr]
        · intro hne
          exact absurd (repoGetLatest_eq_none.mp hr) hne
    | some cfg0 =>
        constructor
        · simp [handlerUpdate, hb, hubUpdate_some h saveU cfg0 hr]
        · intro _
          simp [handlerUpdate, hb, hubUpdate_some h saveU cfg0 hr]

/-- Witness for `interval_floor`: at the empty hub, a create with interval
20 (below the floor) is rejected with ValidationFailed and the state is
unchanged. -/
theorem interval_floor_wit :
    (20 : Int) < 30
    ∧ handlerCreate hubEmpty ⟨"https://example.com/a", 20⟩ "u-1" "t1"
        true true true = (.validationFailed, hubEmpty) :=
  ⟨by decide,
   (interval_floor hubEmpty ⟨"https://example.com/a", 20⟩ ⟨"", none⟩
      "u-1" "t1" 0).1 (by decide)⟩

/-! Leaf side: the worker's in-memory config holder and task execution
(`internal/usecase/config/config_usecase.go`, worker package, and
`internal/domain/worker/entity.go`). -/

/-- In-memory configuration held by the worker (`WorkerConfig`): the
`globalConfig` guarded by `configMutex`. -/
structure WorkerConfig where
  configURL : String
  poolingInterval : Int
  version : Int
  uuid : String
deriving Repr, DecidableEq

/-- Body of `POST /private/config` at the worker (`UpdateConfigRequest`):
every field `required`, `pooling_interval` additionally `min=30`. -/
structure UpdateConfigRequest where
  configURL : String
  poolingInterval : Int
  version : Int
  uuid : String
deriving Repr, DecidableEq

/-- Gin binding validation of `UpdateConfigRequest`: `required` rejects each
field's zero value, `min=30` the interval floor. -/
def bindUpdateConfigRequest (req : UpdateConfigRequest) : Bool :=
  decide (req.configURL ≠ "")
  && (decide (req.poolingInterval ≠ 0)
      && decide ((30 : Int) ≤ req.poolingInterval))
  && decide (req.version ≠ 0)
  && decide (req.uuid ≠ "")

/-- Translation of `Worker.UpdateConfig` (worker usecase): under the config
mutex, overwrite `globalConfig` wholesale with the request's fields and
return `nil`; the previously held configuration (`_held`) is never read —
in particular no version comparison happens. -/
def workerUpdateConfig (_held : Option WorkerConfig)
    (req : UpdateConfigRequest) : Option WorkerConfig × Except String Unit :=
  (some { configURL := req.configURL, poolingInterval := req.poolingInterval
          version := req.version, uuid := req.uuid },
   .ok ())

/-- Outcome of the worker's config-update handler. -/
inductive WorkerOutcome
  | validationFailed
  | applied
deriving Repr, DecidableEq

/-- Translation of `WorkerHandler.UpdateConfig`: `ShouldBindJSON` (reject a
structurally invalid body with `response.BindingError`, holder untouched),
then `Worker.UpdateConfig`. -/
def workerHandlerUpdateConfig (held : Option WorkerConfig)
    (req : UpdateConfigRequest) : Option WorkerConfig × WorkerOutcome :=
  if bindUpdateConfigRequest req then
    ((workerUpdateConfig held req).1, .applied)
  else (held, .validationFailed)

/-- Configuration the worker holds after a push of `req` was accepted. -/
def configOfRequest (req : UpdateConfigRequest) : WorkerConfig :=
  { configURL := req.configURL, poolingInterval := req.poolingInterval
    version := req.version, uuid := req.uuid }

/-- C5: the leaf's apply is unconditional.  Every structurally valid push
overwrites the holder wholesale with the pushed fields and reports success,
whatever was held before — the holder is never consulted, so a push whose
version is lower than the held configuration's version succeeds too, and
the subsequent read returns the lower-version value. -/
theorem worker_apply_unconditional (held : Option WorkerConfig)
    (req : UpdateConfigRequest)
    (hv : bindUpdateConfigRequest req = true) :
    workerHandlerUpdateConfig held req = (some (configOfRequest req), .applied)
    ∧ (∀ prev : WorkerConfig, held = some prev → req.version < prev.version →
        (workerHandlerUpdateConfig held req).1 = some (configOfRequest req)) := by
  constructor
  · simp [workerHandlerUpdateConfig, workerUpdateConfig, configOfRequest, hv]
  · intro prev _ _
    simp [workerHandlerUpdateConfig, workerUpdateConfig, configOfRequest, hv]

/-- Configuration held by the worker in the out-of-order scenario: version 5. -/
def heldW : WorkerConfig :=
  { configURL := "https://example.com/a", poolingInterval := 30
    version := 5, uuid := "u-1" }

/-- Stale push of Scenario D: version 2, lower than the held version 5. -/
def reqW : UpdateConfigRequest :=
  { configURL := "https://example.com/b", poolingInterval := 30
    version := 2, uuid := "u-1" }

/-- Witness for `worker_apply_unconditional`: the worker holds version 5 and
accepts the valid stale push of version 2, the holder afterwards reflecting
the pushed (lower-version) configuration. -/
theorem worker_apply_unconditional_wit :
    bindUpdateConfigRequest reqW = true
    ∧ (workerHandlerUpdateConfig (some heldW) reqW).1
        = some (configOfRequest reqW) :=
  ⟨by decide,
   (worker_apply_unconditional (some heldW) reqW (by decide)).2 heldW rfl
     (by decide)⟩

/-- Minimal JSON value domain standing for the untyped `any` that
`json.Unmarshal` decodes a response body into; the parser itself is the
external `encoding/json`, so `workerHit` takes its outcome as a parameter. -/
inductive Json
  | null
  | num (n : Int)
  | str (s : String)
deriving Repr, DecidableEq

/-- Value returned by the leaf's task execution: the raw body string or a
decoded JSON structure. -/
inductive HitValue
  | raw (body : String)
  | decoded (j : Json)
deriving Repr, DecidableEq

/-- Errors of `Worker.Hit`: no configuration applied yet, or the outbound
request failed. -/
inductive HitErr
  | notFound
  | requestFailed
deriving Repr, DecidableEq

/-- Translation of `Worker.Hit` (worker usecase): error NotFound when no
configuration was ever applied or the held URL is empty; issue
`GET configURL` (`resp` is `none` on a transport/read error, `some body` on
a response); then `json.Unmarshal(bodyBytes, &result)` — `parsed` is its
outcome — and in BOTH branches `return string(bodyBytes), nil`: the decoded
`result` only selects the log line and is discarded. -/
def workerHit (held : Option WorkerConfig) (resp : Option String)
    (parsed : Option Json) : Except HitErr HitValue :=
  match held with
  | none => .error .notFound
  | some cfg =>
      if cfg.configURL = "" then .error .notFound
      else
        match resp with
        | none => .error .requestFailed
        | some body =>
            match parsed with
            | some _ => .ok (.raw body)
            | none => .ok (.raw body)

/-- C9: the claim fails on the code.  With a held configuration, a response
body `"\x7b\"a\": 1\x7d"` that DOES parse as JSON (decoded value modelled as
`Json.num 1`), `Worker.Hit` returns the raw body string, not the decoded
structure: both branches of the unmarshal check return `string(bodyBytes)`,
so the decoded value is computed and then discarded, contradicting the
claim (and the spec) that a parseable body yields the decoded structure. -/
theorem workerHit_returns_raw_on_parseable_json :
    workerHit (some heldW) (some "\x7b\"a\": 1\x7d") (some (.num 1))
        = .ok (.raw "\x7b\"a\": 1\x7d")
    ∧ HitValue.raw "\x7b\"a\": 1\x7d" ≠ HitValue.decoded (.num 1) :=
  ⟨rfl, by decide⟩

/-! Signed-identity protocol (`pkg/crypto/crypto.go`).  Go strings and byte
slices are modelled as `List Nat` with every element `< 256`; the base64
standard encoding used through `encoding/base64.StdEncoding` is implemented
concretely (CR/LF skipping, which Go's decoder also performs, is not
modelled — no token in scope contains them). -/

/-- Well-formed byte string: every element is a byte. -/
def ByteOk (bs : List Nat) : Prop := ∀ b ∈ bs, b < 256

instance (bs : List Nat) : Decidable (ByteOk bs) :=
  List.decidableBAll _ bs

/-- Character (ASCII code) of index `n` of the standard base64 alphabet
`A-Z a-z 0-9 + /`. -/
def encChar (n : Nat) : Nat :=
  if n < 26 then 65 + n
  else if n < 52 then 97 + (n - 26)
  else if n < 62 then 48 + (n - 52)
  else if n = 62 then 43
  else 47

/-- Inverse alphabet lookup: index of an ASCII code, `none` outside the
alphabet (the padding `=` (61) included). -/
def decChar (c : Nat) : Option Nat :=
  if 65 ≤ c ∧ c ≤ 90 then some (c - 65)
  else if 97 ≤ c ∧ c ≤ 122 then some (26 + (c - 97))
  else if 48 ≤ c ∧ c ≤ 57 then some (52 + (c - 48))
  else if c = 43 then some 62
  else if c = 47 then some 63
  else none

/-- Standard base64 encoding with `=` (61) padding, as
`base64.StdEncoding.EncodeToString`: three input bytes become four alphabet
characters, a trailing one or two bytes are padded. -/
def b64encode : List Nat → List Nat
  | [] => []
  | [b1] => [encChar (b1 / 4), encChar (b1 % 4 * 16), 61, 61]
  | [b1, b2] =>
      [encChar (b1 / 4), encChar (b1 % 4 * 16 + b2 / 16),
       encChar (b2 % 16 * 4), 61]
  | b1 :: b2 :: b3 :: rest =>
      encChar (b1 / 4) :: encChar (b1 % 4 * 16 + b2 / 16)
      :: encChar (b2 % 16 * 4 + b3 / 64) :: encChar (b3 % 64)
      :: b64encode rest

/-- Standard base64 decoding, as `base64.StdEncoding.DecodeString`: the
input must be a sequence of four-character quantums, padding may appear only
in the final quantum, any character outside the alphabet (or a length that
is not a multiple of four) is a corrupt-input error, modelled as `none`. -/
def b64decode : List Nat → Option (List Nat)
  | [] => some []
  | c1 :: c2 :: c3 :: c4 :: rest =>
      match decChar c1, decChar c2 with
      | some n1, some n2 =>
          if c3 = 61 ∧ c4 = 61 ∧ rest = [] then
            some [n1 * 4 + n2 / 16]
          else
            match decChar c3 with
            | some n3 =>
                if c4 = 61 ∧ rest = [] then
                  some [n1 * 4 + n2 / 16, n2 % 16 * 16 + n3 / 4]
                else
                  match decChar c4 with
                  | some n4 =>
                      match b64decode rest with
                      | some ds =>
                          some ((n1 * 4 + n2 / 16)
                            :: (n2 % 16 * 16 + n3 / 4)
                            :: (n3 % 4 * 64 + n4) :: ds)
                      | none => none
                  | none => none
            | none => none
      | _, _ => none
  | _ => none

theorem decChar_encChar : ∀ n < 64, decChar (encChar n) = some n := by
  decide

theorem encChar_ne_pad (n : Nat) : encChar n ≠ 61 := by
  unfold encChar
  split_ifs <;> omega

theorem encChar_ne_dot (n : Nat) : encChar n ≠ 46 := by
  unfold encChar
  split_ifs <;> omega

theorem b64decode_encode (bs : List Nat) (h : ByteOk bs) :
    b64decode (b64encode bs) = some bs := by
  induction bs using b64encode.induct with
  | case1 => rfl
  | case2 b1 =>
      have hb1 : b1 < 256 := h b1 (by simp)
      have d1 : decChar (encChar (b1 / 4)) = some (b1 / 4) :=
        decChar_encChar _ (by omega)
      have d2 : decChar (encChar (b1 % 4 * 16)) = some (b1 % 4 * 16) :=
        decChar_encChar _ (by omega)
      simp [b64encode, b64decode, d1, d2]
      omega
  | case3 b1 b2 =>
      have hb1 : b1 < 256 := h b1 (by simp)
      have hb2 : b2 < 256 := h b2 (by simp)
      have d1 : decChar (encChar (b1 / 4)) = some (b1 / 4) :=
        decChar_encChar _ (by omega)
      have d2 : decChar (encChar (b1 % 4 * 16 + b2 / 16))
          = some (b1 % 4 * 16 + b2 / 16) := decChar_encChar _ (by omega)
      have d3 : decChar (encChar (b2 % 16 * 4)) = some (b2 % 16 * 4) :=
        decChar_encChar _ (by omega)
      have hne : encChar (b2 % 16 * 4) ≠ 61 := encChar_ne_pad _
      simp [b64encode, b64decode, d1, d2, d3, hne]
      omega
  | case4 b1 b2 b3 rest ih =>
      have hb1 : b1 < 256 := h b1 (by simp)
      have hb2 : b2 < 256 := h b2 (by simp)
      have hb3 : b3 < 256 := h b3 (by simp)
      have hrest : ByteOk rest := fun b hb => h b (by simp [hb])
      have d1 : decChar (encChar (b1 / 4)) = some (b1 / 4) :=
        decChar_encChar _ (by omega)
      have d2 : decChar (encChar (b1 % 4 * 16 + b2 / 16))
          = some (b1 % 4 * 16 + b2 / 16) := decChar_encChar _ (by omega)
      have d3 : decChar (encChar (b2 % 16 * 4 + b3 / 64))
          = some (b2 % 16 * 4 + b3 / 64) := decChar_encChar _ (by omega)
      have d4 : decChar (encChar (b3 % 64)) = some (b3 % 64) :=
        decChar_encChar _ (by omega)
      have hne3 : encChar (b2 % 16 * 4 + b3 / 64) ≠ 61 := encChar_ne_pad _
      have hne4 : encChar (b3 % 64) ≠ 61 := encChar_ne_pad _
      simp [b64encode, b64decode, d1, d2, d3, d4, hne3, hne4, ih hrest]
      omega

theorem b64encode_no_dot (bs : List Nat) : 46 ∉ b64encode bs := by
  induction bs using b64encode.induct with
  | case1 => simp [b64encode]
  | case2 b1 =>
      simp [b64encode]
      exact ⟨fun hc => encChar_ne_dot _ hc.symm,
             fun hc => encChar_ne_dot _ hc.symm⟩
  | case3 b1 b2 =>
      simp [b64encode]
      exact ⟨fun hc => encChar_ne_dot _ hc.symm,
             fun hc => encChar_ne_dot _ hc.symm,
             fun hc => encChar_ne_dot _ hc.symm⟩
  | case4 b1 b2 b3 rest ih =>
      simp [b64encode]
      refine ⟨fun hc => encChar_ne_dot _ hc.symm,
              fun hc => encChar_ne_dot _ hc.symm,
              fun hc => encChar_ne_dot _ hc.symm,
              fun hc => encChar_ne_dot _ hc.symm, ih⟩

/-- Translation of Go's `strings.Split` on a one-character separator
(`strings.Split(signedText, ".")` with the separator as a byte): always
returns at least one part; every occurrence of `sep` starts a new part. -/
def goSplit (sep : Nat) : List Nat → List (List Nat)
  | [] => [[]]
  | c :: rest =>
      let ps := goSplit sep rest
      if c = sep then [] :: ps
      else
        match ps with
        | [] => [[c]]
        | p :: pt => (c :: p) :: pt

theorem goSplit_ne_nil (sep : Nat) (l : List Nat) : goSplit sep l ≠ [] := by
  cases l with
  | nil => simp [goSplit]
  | cons c rest =>
      simp only [goSplit]
      by_cases hc : c = sep
      · simp [hc]
      · simp only [hc, if_false]
        cases goSplit sep rest <;> simp

theorem goSplit_no_sep {sep : Nat} {a : List Nat} (h : sep ∉ a) :
    goSplit sep a = [a] := by
  induction a with
  | nil => rfl
  | cons c rest ih =>
      have hc : c ≠ sep := fun hc => h (by simp [hc])
      have hrest : sep ∉ rest := fun hr => h (by simp [hr])
      simp only [goSplit, hc, if_false, ih hrest]

theorem goSplit_cons_ne {sep c : Nat} (rest : List Nat) (hc : c ≠ sep) :
    goSplit sep (c :: rest) =
      match goSplit sep rest with
      | [] => [[c]]
      | p :: pt => (c :: p) :: pt := by
  simp [goSplit, hc]

theorem goSplit_append {sep : Nat} {a b : List Nat} (h : sep ∉ a) :
    goSplit sep (a ++ sep :: b) = a :: goSplit sep b := by
  induction a with
  | nil => simp [goSplit]
  | cons c rest ih =>
      have hc : c ≠ sep := fun hc => h (by simp [hc])
      have hrest : sep ∉ rest := fun hr => h (by simp [hr])
      rw [List.cons_append, goSplit_cons_ne _ hc, ih hrest]

/-- Nibble expansion (each byte becomes its two hex digits), used by the
symbolic MAC below. -/
def toNibbles : List Nat → List Nat
  | [] => []
  | b :: rest => b / 16 :: b % 16 :: toNibbles rest

/-- Modelled from the spec: `crypto.Generate`/`crypto.Verify` compute an
HMAC-SHA256 of the raw text under the secret via Go's `crypto/hmac` and
`crypto/sha256` — external libraries, not part of this repository.  The MAC
is modelled symbolically as a deterministic keyed function that is injective
in the (key, text) pair, reflecting the spec's working assumption that
distinct secrets produce distinct signatures; its output is a byte string
(nibbles of the key, a `255` separator, nibbles of the text). -/
def hmacSHA256 (secretKey text : List Nat) : List Nat :=
  toNibbles secretKey ++ 255 :: toNibbles text

theorem toNibbles_lt16 {bs : List Nat} (h : ByteOk bs) :
    ∀ x ∈ toNibbles bs, x < 16 := by
  induction bs with
  | nil => simp [toNibbles]
  | cons b rest ih =>
      intro x hx
      have hb : b < 256 := h b (by simp)
      have hrest : ByteOk rest := fun c hc => h c (by simp [hc])
      simp only [toNibbles, List.mem_cons] at hx
      rcases hx with h1 | h1 | h1
      · subst h1; omega
      · subst h1; omega
      · exact ih hrest x h1

theorem toNibbles_inj : ∀ {a b : List Nat}, ByteOk a → ByteOk b →
    toNibbles a = toNibbles b → a = b := by
  intro a
  induction a with
  | nil =>
      intro b _ _ h
      cases b with
      | nil => rfl
      | cons x xs => simp [toNibbles] at h
  | cons x xs ih =>
      intro b ha hb h
      cases b with
      | nil => simp [toNibbles] at h
      | cons y ys =>
          simp only [toNibbles, List.cons.injEq] at h
          obtain ⟨h1, h2, h3⟩ := h
          have hx : x < 256 := ha x (by simp)
          have hy : y < 256 := hb y (by simp)
          have hxy : x = y := by omega
          have := ih (fun c hc => ha c (by simp [hc]))
            (fun c hc => hb c (by simp [hc])) h3
          rw [hxy, this]

theorem append_sep_inj {v : Nat} :
    ∀ {a b x y : List Nat}, (∀ c ∈ a, c ≠ v) → (∀ c ∈ b, c ≠ v) →
      a ++ v :: x = b ++ v :: y → a = b ∧ x = y := by
  intro a
  induction a with
  | nil =>
      intro b x y _ hb h
      cases b with
      | nil => simpa using h
      | cons d bs =>
          simp only [List.nil_append, List.cons_append, List.cons.injEq] at h
          exact absurd h.1.symm (hb d (by simp))
  | cons c as ih =>
      intro b x y ha hb h
      cases b with
      | nil =>
          simp only [List.nil_append, List.cons_append, List.cons.injEq] at h
          exact absurd h.1 (ha c (by simp))
      | cons d bs =>
          simp only [List.cons_append, List.cons.injEq] at h
          obtain ⟨hcd, hrest⟩ := h
          obtain ⟨h1, h2⟩ := ih (fun e he => ha e (by simp [he]))
            (fun e he => hb e (by simp [he])) hrest
          exact ⟨by rw [hcd, h1], h2⟩

theorem hmacSHA256_eq_nibbles (secretKey text : List Nat) :
    hmacSHA256 secretKey text
      = toNibbles secretKey ++ 255 :: toNibbles text := rfl

theorem hmacSHA256_byteOk (secretKey text : List Nat)
    (hs : ByteOk secretKey) (ht : ByteOk text) :
    ByteOk (hmacSHA256 secretKey text) := by
  intro b hb
  rw [hmacSHA256_eq_nibbles] at hb
  simp only [List.mem_append, List.mem_cons] at hb
  rcases hb with h1 | h1 | h1
  · have := toNibbles_lt16 hs b h1; omega
  · omega
  · have := toNibbles_lt16 ht b h1; omega

theorem hmacSHA256_key_inj {s s' text : List Nat}
    (hs : ByteOk s) (hs' : ByteOk s')
    (h : hmacSHA256 s text = hmacSHA256 s' text) : s = s' := by
  rw [hmacSHA256_eq_nibbles, hmacSHA256_eq_nibbles] at h
  have h255s : ∀ c ∈ toNibbles s, c ≠ 255 := fun c hc => by
    have := toNibbles_lt16 hs c hc; omega
  have h255s' : ∀ c ∈ toNibbles s', c ≠ 255 := fun c hc => by
    have := toNibbles_lt16 hs' c hc; omega
  obtain ⟨h1, _⟩ := append_sep_inj h255s h255s' h
  exact toNibbles_inj hs hs' h1

/-- Errors of `pkg/crypto`: the empty-input error of `Generate`, the
invalid-format error of `Verify`, and a base64 corrupt-input error from
`DecodeString`. -/
inductive CryptoErr
  | emptyInput
  | invalidFormat
  | corruptInput
deriving Repr, DecidableEq

/-- Translation of `crypto.Generate` (`pkg/crypto/crypto.go`): reject empty
text or secret; base64-encode the text; HMAC-SHA256 the raw text under the
secret and base64-encode the signature; return
`encodedText ++ "." ++ signature` (the dot is byte 46). -/
def Generate (text secretKey : List Nat) :
    Except CryptoErr (List Nat) :=
  if text = [] ∨ secretKey = [] then .error .emptyInput
  else
    .ok (b64encode text ++ 46 :: b64encode (hmacSHA256 secretKey text))

/-- Translation of `crypto.Verify` (`pkg/crypto/crypto.go`): split the token
on `"."`; exactly two parts are required (`invalid signed text format`);
base64-decode the identity part (`corruptInput` on failure); recompute the
HMAC of the decoded text under the provided secret; base64-decode the
signature part; compare with `hmac.Equal`: on a match return
`(true, originalText)`, on a mismatch `(false, "")` with a nil error. -/
def Verify (signedText secretKey : List Nat) :
    Except CryptoErr (Bool × List Nat) :=
  match goSplit 46 signedText with
  | [p0, p1] =>
      match b64decode p0 with
      | none => .error .corruptInput
      | some textBytes =>
          match b64decode p1 with
          | none => .error .corruptInput
          | some inputSignature =>
              if inputSignature = hmacSHA256 secretKey textBytes then
                .ok (true, textBytes)
              else
                .ok (false, [])
  | _ => .error .invalidFormat

/-- Token produced by a successful `crypto.Generate`. -/
def issuedToken (text secretKey : List Nat) : List Nat :=
  b64encode text ++ 46 :: b64encode (hmacSHA256 secretKey text)

/-- C4: the issue/verify round-trip.  For non-empty byte strings `v`
(identity) and `s` (secret), `Generate` succeeds with the token
`base64(v) ++ "." ++ base64(mac(s, v))`; verifying that token under `s`
yields `(true, v)`; and verifying it under any other secret `s'` yields
`(false, "")` — valid is false and the recovered identity empty. -/
theorem issue_verify_roundtrip (v s s' : List Nat)
    (hv : v ≠ []) (hs : s ≠ []) (hbv : ByteOk v) (hbs : ByteOk s)
    (hbs' : ByteOk s') (hne : s' ≠ s) :
    Generate v s = .ok (issuedToken v s)
    ∧ Verify (issuedToken v s) s = .ok (true, v)
    ∧ Verify (issuedToken v s) s' = .ok (false, []) := by
  have hsplit : goSplit 46 (issuedToken v s)
      = [b64encode v, b64encode (hmacSHA256 s v)] := by
    unfold issuedToken
    rw [goSplit_append (b64encode_no_dot v),
        goSplit_no_sep (b64encode_no_dot _)]
  have hdv : b64decode (b64encode v) = some v := b64decode_encode v hbv
  have hds : b64decode (b64encode (hmacSHA256 s v))
      = some (hmacSHA256 s v) :=
    b64decode_encode _ (hmacSHA256_byteOk s v hbs hbv)
  have hneq : hmacSHA256 s v ≠ hmacSHA256 s' v := fun heq =>
    hne ((hmacSHA256_key_inj hbs hbs' heq).symm)
  refine ⟨?_, ?_, ?_⟩
  · unfold Generate issuedToken
    rw [if_neg (by simp [hv, hs])]
  · unfold Verify
    rw [hsplit]
    simp [hdv, hds]
  · unfold Verify
    rw [hsplit]
    simp [hdv, hds, hneq]

/-- Sample identity bytes, the ASCII of `"hi"`. -/
def vW : List Nat := [104, 105]

/-- Sample secret bytes, the ASCII of `"s1"`. -/
def sW : List Nat := [115, 49]

/-- Sample wrong secret bytes, the ASCII of `"s2"`. -/
def sW2 : List Nat := [115, 50]

/-- Witness for `issue_verify_roundtrip` at `v = "hi"`, `s = "s1"`,
`s' = "s2"`. -/
theorem issue_verify_roundtrip_wit :
    (vW ≠ [] ∧ sW ≠ [] ∧ ByteOk vW ∧ ByteOk sW ∧ ByteOk sW2 ∧ sW2 ≠ sW)
    ∧ Verify (issuedToken vW sW) sW = .ok (true, vW)
    ∧ Verify (issuedToken vW sW) sW2 = .ok (false, []) :=
  ⟨⟨by decide, by decide, by decide, by decide, by decide, by decide⟩,
   (issue_verify_roundtrip vW sW sW2 (by decide) (by decide) (by decide)
      (by decide) (by decide) (by decide)).2.1,
   (issue_verify_roundtrip vW sW sW2 (by decide) (by decide) (by decide)
      (by decide) (by decide) (by decide)).2.2⟩

/-- C8: error behaviour of `crypto.Verify`.  A token that does not split
into exactly two dot-separated parts is an `invalidFormat` error; a part
that is not valid base64 is a `corruptInput` error; a structurally sound
token whose recomputed signature mismatches yields `(false, "")` with NO
error; and conversely every error comes from one of the two structural
defects. -/
theorem verify_error_characterization (t s : List Nat) :
    ((goSplit 46 t).length ≠ 2 → Verify t s = .error .invalidFormat)
    ∧ (∀ p0 p1, goSplit 46 t = [p0, p1] →
        (b64decode p0 = none → Verify t s = .error .corruptInput)
        ∧ (∀ tb, b64decode p0 = some tb →
            (b64decode p1 = none → Verify t s = .error .corruptInput)
            ∧ (∀ sig, b64decode p1 = some sig →
                sig ≠ hmacSHA256 s tb → Verify t s = .ok (false, []))))
    ∧ (∀ e, Verify t s = .error e →
        (goSplit 46 t).length ≠ 2
        ∨ ∃ p0 p1, goSplit 46 t = [p0, p1]
            ∧ (b64decode p0 = none ∨ b64decode p1 = none)) := by
  refine ⟨?_, ?_, ?_⟩
  · intro hlen
    unfold Verify
    cases hsp : goSplit 46 t with
    | nil => rfl
    | cons p0 tail =>
        cases tail with
        | nil => rfl
        | cons p1 tail2 =>
            cases tail2 with
            | nil => exact absurd (by rw [hsp]; rfl) hlen
            | cons p2 tail3 => rfl
  · intro p0 p1 hsp
    have hV : Verify t s =
        (match b64decode p0 with
         | none => .error .corruptInput
         | some textBytes =>
             match b64decode p1 with
             | none => .error .corruptInput
             | some inputSignature =>
                 if inputSignature = hmacSHA256 s textBytes then
                   .ok (true, textBytes)
                 else
                   .ok (false, [])) := by
      unfold Verify
      rw [hsp]
    refine ⟨?_, ?_⟩
    · intro hd0
      rw [hV, hd0]
    · intro tb hd0
      refine ⟨?_, ?_⟩
      · intro hd1
        rw [hV, hd0, hd1]
      · intro sig hd1 hneq
        rw [hV, hd0, hd1]
        simp [hneq]
  · intro e he
    by_cases hlen : (goSplit 46 t).length = 2
    · right
      cases hsp : goSplit 46 t with
      | nil => rw [hsp] at hlen; simp at hlen
      | cons p0 tail =>
          cases tail with
          | nil => rw [hsp] at hlen; simp at hlen
          | cons p1 tail2 =>
              cases tail2 with
              | cons p2 tail3 => rw [hsp] at hlen; simp at hlen
              | nil =>
                  refine ⟨p0, p1, rfl, ?_⟩
                  have hV : Verify t s =
                      (match b64decode p0 with
                       | none => .error .corruptInput
                       | some textBytes =>
                           match b64decode p1 with
                           | none => .error .corruptInput
                           | some inputSignature =>
                               if inputSignature = hmacSHA256 s textBytes then
                                 .ok (true, textBytes)
                               else
                                 .ok (false, [])) := by
                    unfold Verify
                    rw [hsp]
                  rw [hV] at he
                  cases hd0 : b64decode p0 with
                  | none => exact Or.inl rfl
                  | some tb =>
                      rw [hd0] at he
                      cases hd1 : b64decode p1 with
                      | none => exact Or.inr rfl
                      | some sig =>
                          rw [hd1] at he
                          by_cases hc : sig = hmacSHA256 s tb
                          · simp [hc] at he
                          · simp [hc] at he
    · exact Or.inl hlen

/-- Witness for `verify_error_characterization`: the token `"."` splits into
two empty parts, both valid base64 of the empty byte string; the empty
signature mismatches the recomputed MAC under secret `"s1"`, and `Verify`
answers `(false, "")` without an error. -/
theorem verify_error_characterization_wit :
    goSplit 46 [46] = [[], []]
    ∧ b64decode [] = some []
    ∧ ([] : List Nat) ≠ hmacSHA256 sW []
    ∧ Verify [46] sW = .ok (false, []) :=
  ⟨by decide, by decide, by decide,
   (((verify_error_characterization [46] sW).2.1 [] [] (by decide)).2 []
      (by decide)).2 [] (by decide) (by decide)⟩

end DistSys
